import Mathlib

/-
Verification of the radiance core: the in-memory reference-counted virtual
file system (src/core/FileSystem.ts) and the manager kernel
(src/kernel/Kernel.ts).

Modelling conventions:
- JavaScript plain objects used as string-keyed dictionaries are modelled by
  insertion-ordered association lists (`JsMap`): property write replaces the
  existing binding in place or appends a fresh one, `delete` removes it.
  Keyed reads and writes are order-independent, but `Object.values`
  enumerates own properties in the ECMAScript order: array-index keys first
  in ascending numeric order, then the remaining string keys in insertion
  order (`jsValues`).  This matters only to `Kernel.start`, whose manager
  names are arbitrary caller-chosen strings; node and entry registries are
  keyed by v1 uuids, which are never array-index strings.
- uuid identifiers are modelled as natural numbers; uuid generation is
  modelled by a parameter together with a freshness side condition.
- Methods that mutate object state are state-passing functions returning the
  post-state together with an `Except` result; a thrown exception is an
  `Except.error`, and because JS mutations performed before the throw
  persist, the post-state is returned even on the error path.
- The `filesystem` back-reference stored in `Entry` and `Node` objects is
  represented by the `FileSystem` state the operation is threaded through.
-/

namespace Radiance

/-- Association-list model of a JS object used as a dictionary. -/
abbrev JsMap (α β : Type) := List (α × β)

/-- Property read: value at the first binding of the key, if any. -/
def jsGet {α β : Type} [DecidableEq α] : JsMap α β → α → Option β
  | [], _ => none
  | p :: rest, k => if p.1 = k then some p.2 else jsGet rest k

/-- Property write: replace the binding in place if present, else append. -/
def jsSet {α β : Type} [DecidableEq α] : JsMap α β → α → β → JsMap α β
  | [], k, v => [(k, v)]
  | p :: rest, k, v => if p.1 = k then (k, v) :: rest else p :: jsSet rest k v

/-- Property delete: remove the binding of the key. -/
def jsDelete {α β : Type} [DecidableEq α] : JsMap α β → α → JsMap α β
  | [], _ => []
  | p :: rest, k => if p.1 = k then jsDelete rest k else p :: jsDelete rest k


/-- Identifier of a `Node` (a uuid string in the source, modelled as a Nat). -/
abbrev NodeId := Nat

/-- Identifier of an `Entry` (a uuid string in the source, modelled as a Nat). -/
abbrev EntryId := Nat

/-- Failure taxonomy of the core.  The source throws plain `Error` objects
whose messages distinguish the cases; `typeError` stands for a TypeError the
JS runtime itself raises (reading a property of `undefined`, or calling a
method that does not exist on the receiver). -/
inductive Err where
  | notFound
  | duplicateName
  | invalidLifecycleState
  | typeError
  deriving DecidableEq, Repr

/-- Translation of class `Entry`: id, name, target `Node` id, and the optional
parent `Directory` id.  The `filesystem` back-reference is the state the
operations below are threaded through. -/
structure Entry where
  id : EntryId
  name : String
  node : NodeId
  parent : Option NodeId
  deriving DecidableEq, Repr

/-- Payload of a `Node`: a `Directory` (including `ExternDirectory`, whose
inherited payload mapping is present but unused) holds a name-to-`EntryId`
mapping, a `File` holds raw bytes. -/
inductive NodeData where
  | dir (mapping : JsMap String EntryId)
  | file (bytes : List Nat)
  deriving DecidableEq, Repr

/-- Translation of class `Node`: id, reference count (`references`, a JS
number starting at 0, modelled as an Int so that decrements below zero are
represented faithfully) and typed payload `data`. -/
structure Node where
  id : NodeId
  references : Int
  data : NodeData
  deriving DecidableEq, Repr

/-- Translation of class `FileSystem`: diagnostic name, the node registry,
the entry registry, and the optional root entry id. -/
structure FileSystem where
  name : String
  nodes : JsMap NodeId Node
  entries : JsMap EntryId Entry
  root : Option EntryId
  deriving DecidableEq, Repr

/-- FileSystem.addNode: `this.nodes[node.id] = node`. -/
def FileSystem.addNode (fs : FileSystem) (n : Node) : FileSystem :=
  { fs with nodes := jsSet fs.nodes n.id n }

/-- FileSystem.removeNode: throws NotFound if the id is absent, otherwise
deletes the binding and returns the removed node. -/
def FileSystem.removeNode (fs : FileSystem) (id : NodeId) :
    FileSystem × Except Err Node :=
  match jsGet fs.nodes id with
  | none => (fs, .error .notFound)
  | some n => ({ fs with nodes := jsDelete fs.nodes id }, .ok n)

/-- FileSystem.getNode: throws NotFound if the id is absent. -/
def FileSystem.getNode (fs : FileSystem) (id : NodeId) : Except Err Node :=
  match jsGet fs.nodes id with
  | none => .error .notFound
  | some n => .ok n

/-- FileSystem.getEntry: throws NotFound if the id is absent. -/
def FileSystem.getEntry (fs : FileSystem) (id : EntryId) : Except Err Entry :=
  match jsGet fs.entries id with
  | none => .error .notFound
  | some e => .ok e

/-- FileSystem.getEntries: `Object.values(this.entries)`. -/
def FileSystem.getEntries (fs : FileSystem) : List Entry :=
  fs.entries.map Prod.snd

/-- Node constructor body: the node starts with `references = 0` and
self-registers through `filesystem.addNode`.  The generated uuid appears as
the `id` parameter. -/
def Node.create (fs : FileSystem) (id : NodeId) (d : NodeData) :
    FileSystem × Node :=
  let n : Node := { id := id, references := 0, data := d }
  (fs.addNode n, n)

/-- FileSystem.addEntry:
`this.entries[entry.id] = entry; entry.getNode().entryAdded(entry);`.
The registry is mutated first; `entry.getNode()` then resolves the target
node through `FileSystem.getNode` and can throw NotFound, in which case the
already-performed registry insertion persists.  On success,
`Node.entryAdded` increments the reference count of the target node object
(visible at its slot in the node registry). -/
def FileSystem.addEntry (fs : FileSystem) (e : Entry) :
    FileSystem × Except Err Unit :=
  let fs1 : FileSystem := { fs with entries := jsSet fs.entries e.id e }
  match jsGet fs1.nodes e.node with
  | none => (fs1, .error .notFound)
  | some n =>
    ({ fs1 with nodes := jsSet fs1.nodes e.node { n with references := n.references + 1 } },
      .ok ())

/-- FileSystem.removeEntry: throws NotFound when the id is unregistered;
otherwise deletes the registry binding, then lets the target node run
`Node.entryRemoved` (`references--`, and `remove()` when the result is at
most 0, which performs `FileSystem.removeNode(this.id)`).  The node lookup
`entry.getNode()` happens after the registry deletion, so a dangling target
leaves the entry deleted while the call throws NotFound.  No parent
directory is consulted anywhere in this method. -/
def FileSystem.removeEntry (fs : FileSystem) (id : EntryId) :
    FileSystem × Except Err Entry :=
  match jsGet fs.entries id with
  | none => (fs, .error .notFound)
  | some e =>
    let fs1 : FileSystem := { fs with entries := jsDelete fs.entries id }
    match jsGet fs1.nodes e.node with
    | none => (fs1, .error .notFound)
    | some n =>
      let n1 : Node := { n with references := n.references - 1 }
      let fs2 : FileSystem := { fs1 with nodes := jsSet fs1.nodes e.node n1 }
      if n1.references ≤ 0 then
        match fs2.removeNode n1.id with
        | (fs3, .ok _) => (fs3, .ok e)
        | (fs3, .error er) => (fs3, .error er)
      else
        (fs2, .ok e)

/-- Directory.addEntry, acting on the receiver fields it reads (`this.id`
and the payload mapping `this.data`) and on the entry object:
duplicate-name check by truthiness of `this.data[entry.name]` (entry ids
are non-empty uuid strings, hence truthy exactly when the binding exists),
then `this.data[entry.name] = entry.id` and `entry.parent = this.id`.  The
post-state of the mapping and of the entry object is returned even on the
error path (where nothing was mutated). -/
def Directory.addEntry (dirId : NodeId) (mapping : JsMap String EntryId)
    (e : Entry) : (JsMap String EntryId × Entry) × Except Err Unit :=
  if (jsGet mapping e.name).isSome then
    ((mapping, e), .error .duplicateName)
  else
    ((jsSet mapping e.name e.id, { e with parent := some dirId }), .ok ())

/-- Directory.removeEntry in the source reads `this.entries[name]`, but a
`Directory` object has no `entries` property (its mapping lives in
`this.data`), so `this.entries` is `undefined` and indexing it makes the JS
runtime throw a TypeError on the first line of the method, before any state
is touched.  Every call therefore fails with a TypeError and leaves the
mapping unchanged. -/
def Directory.removeEntryByName (mapping : JsMap String EntryId)
    (nm : String) : JsMap String EntryId × Except Err Entry :=
  (mapping, .error .typeError)

/-- Directory.getEntry in the source also reads the nonexistent
`this.entries` property: every call throws a TypeError. -/
def Directory.getEntryByName (mapping : JsMap String EntryId)
    (nm : String) : Except Err Entry :=
  .error .typeError

/-- Directory.getEntries in the source evaluates
`Object.values(this.entries)` with `this.entries` undefined, which makes the
JS runtime throw a TypeError: every call fails. -/
def Directory.getEntriesOf (mapping : JsMap String EntryId) :
    Except Err (List Entry) :=
  .error .typeError

/-- Composition `fs.getRoot().getNode()` used by every ExternDirectory
operation: `getRoot` returns `undefined` when `root` is unset, so the
chained `.getNode()` raises a TypeError; otherwise it is
`getEntry(root)` (NotFound when the root entry is unregistered) followed by
`Entry.getNode` (NotFound when the target node is unregistered). -/
def FileSystem.rootNode (fs : FileSystem) : Except Err Node :=
  match fs.root with
  | none => .error .typeError
  | some rid =>
    match fs.getEntry rid with
    | .error er => .error er
    | .ok re => fs.getNode re.node

/-- The call `fs.getRoot().getNode().addEntry(e)` made directly on the root
Directory Node of `fs`: resolve the root node, then run `Directory.addEntry`
on it, the payload mutation landing at the node's registry slot.  A `File`
root node has no `addEntry` method, so the call raises a TypeError.  (The
claims consider a plain `Directory` root; an ExternDirectory root would
forward once more.) -/
def FileSystem.rootAddEntry (fs : FileSystem) (e : Entry) :
    FileSystem × Except Err Entry :=
  match fs.rootNode with
  | .error er => (fs, .error er)
  | .ok n =>
    match n.data with
    | .file _ => (fs, .error .typeError)
    | .dir m =>
      match Directory.addEntry n.id m e with
      | ((m', e'), .ok _) =>
        ({ fs with nodes := jsSet fs.nodes n.id { n with data := .dir m' } }, .ok e')
      | (_, .error er) => (fs, .error er)

/-- The call `fs.getRoot().getNode().removeEntry(name)` made directly on the
root Directory Node: after resolution, `Directory.removeEntry` throws a
TypeError before mutating anything, so the state is unchanged. -/
def FileSystem.rootRemoveEntry (fs : FileSystem) (nm : String) :
    FileSystem × Except Err Entry :=
  match fs.rootNode with
  | .error er => (fs, .error er)
  | .ok n =>
    match n.data with
    | .file _ => (fs, .error .typeError)
    | .dir m => (fs, (Directory.removeEntryByName m nm).2)

/-- The call `fs.getRoot().getNode().getEntry(name)` made directly on the
root Directory Node. -/
def FileSystem.rootGetEntry (fs : FileSystem) (nm : String) : Except Err Entry :=
  match fs.rootNode with
  | .error er => .error er
  | .ok n =>
    match n.data with
    | .file _ => .error .typeError
    | .dir m => Directory.getEntryByName m nm

/-- The call `fs.getRoot().getNode().getEntries()` made directly on the root
Directory Node. -/
def FileSystem.rootGetEntries (fs : FileSystem) : Except Err (List Entry) :=
  match fs.rootNode with
  | .error er => .error er
  | .ok n =>
    match n.data with
    | .file _ => .error .typeError
    | .dir m => Directory.getEntriesOf m

/-- ExternDirectory.addEntry:
`this.target.getRoot().getNode().addEntry(entry)`.  The receiver is the
extern directory node `xid` of the `host` filesystem; the method reads only
`this.target`, so the host state passes through untouched and the whole
effect lands in the target filesystem. -/
def ExternDirectory.addEntry (host : FileSystem) (xid : NodeId)
    (target : FileSystem) (e : Entry) :
    (FileSystem × FileSystem) × Except Err Entry :=
  ((host, (target.rootAddEntry e).1), (target.rootAddEntry e).2)

/-- ExternDirectory.removeEntry:
`this.target.getRoot().getNode().removeEntry(name)` (the source omits the
`return`, which is unobservable because the forwarded call always throws). -/
def ExternDirectory.removeEntry (host : FileSystem) (xid : NodeId)
    (target : FileSystem) (nm : String) :
    (FileSystem × FileSystem) × Except Err Entry :=
  ((host, (target.rootRemoveEntry nm).1), (target.rootRemoveEntry nm).2)

/-- ExternDirectory.getEntry:
`return this.target.getRoot().getNode().getEntry(name)`. -/
def ExternDirectory.getEntry (host : FileSystem) (xid : NodeId)
    (target : FileSystem) (nm : String) : Except Err Entry :=
  target.rootGetEntry nm

/-- ExternDirectory.getEntries:
`return this.target.getRoot().getNode().getEntries()`. -/
def ExternDirectory.getEntries (host : FileSystem) (xid : NodeId)
    (target : FileSystem) : Except Err (List Entry) :=
  target.rootGetEntries

/-- Translation of class `Manager` (src/kernel/Kernel.ts): only the unique
name matters to the kernel contract; `setup` stores the kernel
back-reference and `start` is a no-op by default, both recorded as events by
`Kernel.start` below. -/
structure Manager where
  name : String
  deriving DecidableEq, Repr

/-- Translation of class `Kernel`: manager registry keyed by name, and the
running flag (false at construction). -/
structure Kernel where
  managers : JsMap String Manager
  running : Bool
  deriving DecidableEq, Repr

/-- Kernel.registerManager: throws InvalidLifecycleState when already
running, DuplicateName when the name is taken (a Manager object is always
truthy), and otherwise stores the manager under its name. -/
def Kernel.registerManager (k : Kernel) (m : Manager) :
    Kernel × Except Err Unit :=
  if k.running then (k, .error .invalidLifecycleState)
  else if (jsGet k.managers m.name).isSome then (k, .error .duplicateName)
  else ({ k with managers := jsSet k.managers m.name m }, .ok ())

/-- Kernel.getManager: throws NotFound for an unregistered name. -/
def Kernel.getManager (k : Kernel) (nm : String) : Except Err Manager :=
  match jsGet k.managers nm with
  | none => .error .notFound
  | some m => .ok m

/-- Decimal value of a digit-character list, most significant first. -/
def digitsValAux : Nat → List Char → Nat
  | acc, [] => acc
  | acc, c :: cs => digitsValAux (acc * 10 + (c.toNat - 48)) cs

/-- Canonical array-index key test of ECMAScript: a nonempty digit string
with no leading zero (except the string 0 itself) whose numeric value is
below 2^32 - 1.  Such own-property keys enumerate before all other string
keys. -/
def isArrayIndexKey (s : String) : Bool :=
  match s.toList with
  | [] => false
  | c :: cs =>
    (c :: cs).all (fun d => decide ('0' ≤ d) && decide (d ≤ '9')) &&
      (decide (c ≠ '0') || decide (cs = [])) &&
      decide (digitsValAux 0 (c :: cs) < 4294967295)

/-- Numeric value of an array-index key. -/
def idxVal (s : String) : Nat := digitsValAux 0 s.toList

/-- Insert a binding into a list sorted by ascending array-index value. -/
def insertByIdx {β : Type} (p : String × β) : JsMap String β → JsMap String β
  | [] => [p]
  | q :: rest =>
    if idxVal p.1 ≤ idxVal q.1 then p :: q :: rest
    else q :: insertByIdx p rest

/-- Insertion sort of bindings by ascending array-index value. -/
def sortByIdx {β : Type} : JsMap String β → JsMap String β
  | [] => []
  | p :: rest => insertByIdx p (sortByIdx rest)

/-- Object.values of a plain JS object: own string keys enumerate with
array-index keys first in ascending numeric order, then the remaining keys
in insertion order. -/
def jsValues {β : Type} (m : JsMap String β) : List β :=
  (sortByIdx (m.filter (fun p => isArrayIndexKey p.1)) ++
      m.filter (fun p => !isArrayIndexKey p.1)).map Prod.snd

/-- A recorded lifecycle hook invocation. -/
inductive Event where
  | setup (nm : String)
  | start (nm : String)
  deriving DecidableEq, Repr

def Event.isSetup : Event → Bool
  | .setup _ => true
  | .start _ => false

def Event.isStart : Event → Bool
  | .setup _ => false
  | .start _ => true

/-- Kernel.start: sets `running := true`, takes
`Object.values(this.managers)` (own-property enumeration order: array-index
manager names first in ascending numeric order, then the rest in
registration order), then runs the setup loop followed by the start loop
over that one list.  The returned list is the trace of hook invocations in
execution order. -/
def Kernel.start (k : Kernel) : Kernel × List Event :=
  ({ k with running := true },
    (jsValues k.managers).map (fun mg => Event.setup mg.name) ++
      (jsValues k.managers).map (fun mg => Event.start mg.name))

/-- Number of currently-registered entries of the filesystem whose target is
the given node. -/
def FileSystem.refTargets (fs : FileSystem) (nid : NodeId) : Nat :=
  fs.entries.countP (fun p => decide (p.2.node = nid))

/-- Registry well-formedness: registry keys are duplicate-free and each
registered object sits at the slot of its own id.  This holds for every
state built by the self-registering constructors (uuid keys). -/
def FileSystem.WFState (fs : FileSystem) : Prop :=
  (fs.nodes.map Prod.fst).Nodup ∧ (fs.entries.map Prod.fst).Nodup ∧
    (∀ p ∈ fs.nodes, p.2.id = p.1) ∧ (∀ p ∈ fs.entries, p.2.id = p.1)

/-- The refcount invariant: every registered node's reference count equals
the number of currently-registered entries targeting it. -/
def FileSystem.RefInv (fs : FileSystem) : Prop :=
  ∀ p ∈ fs.nodes, p.2.references = (fs.refTargets p.1 : Int)

instance (fs : FileSystem) : Decidable fs.WFState := by
  unfold FileSystem.WFState
  infer_instance

instance (fs : FileSystem) : Decidable fs.RefInv := by
  unfold FileSystem.RefInv
  infer_instance

/-- One core mutating operation on a filesystem state.  The uuid generated
by a constructor appears as an id parameter with its freshness side
conditions (a fresh uuid collides neither with a registered id nor with the
dangling target of an existing entry). -/
inductive Step : FileSystem → FileSystem → Prop where
  | createNode (fs : FileSystem) (id : NodeId) (d : NodeData)
      (hfresh : jsGet fs.nodes id = none)
      (hnoref : fs.refTargets id = 0) :
      Step fs (Node.create fs id d).1
  | removeNode (fs : FileSystem) (id : NodeId) :
      Step fs (fs.removeNode id).1
  | addEntry (fs : FileSystem) (e : Entry)
      (hfresh : jsGet fs.entries e.id = none) :
      Step fs (fs.addEntry e).1
  | removeEntry (fs : FileSystem) (id : EntryId) :
      Step fs (fs.removeEntry id).1
  | dirAddEntry (fs : FileSystem) (dirId : NodeId) (n : Node)
      (m : JsMap String EntryId) (e : Entry)
      (hdir : jsGet fs.nodes dirId = some n) (hm : n.data = .dir m) :
      Step fs { fs with nodes := jsSet fs.nodes dirId { n with data := NodeData.dir (Directory.addEntry n.id m e).1.1 } }

/-- Concrete single-node filesystem used by the refcount witness. -/
def fsW : FileSystem :=
  { name := "w", nodes := [(0, { id := 0, references := 0, data := .file [] })],
    entries := [], root := none }

/-- Concrete entry targeting the node of `fsW`. -/
def eW : Entry := { id := 11, name := "a", node := 0, parent := none }

/-- Root directory node of the example scenario of the specification: its
payload maps the file entry name to the file entry id. -/
def dirD : Node := { id := 0, references := 1, data := .dir [("a.txt", 11)] }

/-- File node of the example scenario, holding bytes 0x41 0x42. -/
def fileF : Node := { id := 1, references := 1, data := .file [65, 66] }

/-- Root entry of the example scenario. -/
def rootE : Entry := { id := 10, name := "/", node := 0, parent := none }

/-- File entry of the example scenario, parented to the root directory. -/
def eA : Entry := { id := 11, name := "a.txt", node := 1, parent := some 0 }

/-- Example filesystem of the specification scenario: a root Directory
listing one File entry, both entries registered, counts consistent. -/
def fs2 : FileSystem :=
  { name := "fs", nodes := [(0, dirD), (1, fileF)],
    entries := [(10, rootE), (11, eA)], root := some 10 }

/-- Manager named a, used by the kernel witnesses. -/
def mA : Manager := { name := "a" }

/-- Manager named b, used by the kernel witnesses. -/
def mB : Manager := { name := "b" }

/-- Concrete kernel with two registered managers, not yet running. -/
def k2 : Kernel := { managers := [("a", mA), ("b", mB)], running := false }

/-- Root directory node of the mount target filesystem. -/
def dirT : Node := { id := 0, references := 1, data := .dir [] }

/-- A file node of the mount target filesystem. -/
def fileT : Node := { id := 1, references := 0, data := .file [] }

/-- Root entry of the mount target filesystem. -/
def rootT : Entry := { id := 10, name := "/", node := 0, parent := none }

/-- Mount target filesystem: root Directory entry set, plus one File node. -/
def fsT : FileSystem :=
  { name := "t", nodes := [(0, dirT), (1, fileT)],
    entries := [(10, rootT)], root := some 10 }

/-- Host filesystem holding the extern directory node (id 7) whose target is
`fsT`. -/
def fsH : FileSystem :=
  { name := "h", nodes := [(7, { id := 7, references := 0, data := .dir [] })],
    entries := [], root := none }

/-- Entry pushed through the mount in the C5 scenario. -/
def eT : Entry := { id := 20, name := "f", node := 1, parent := none }

/-- Filesystem with a dangling entry: its target node 99 is unregistered
(as after an explicit Node.remove on the target). -/
def fsD : FileSystem :=
  { name := "d", nodes := [],
    entries := [(30, { id := 30, name := "x", node := 99, parent := none })],
    root := none }

/-- Kernel obtained by registering the manager named b and then the manager
named 0 (an array-index-like name) on a fresh kernel, in that order. -/
def kX : Kernel :=
  ((({ managers := [], running := false } : Kernel).registerManager
      { name := "b" }).1.registerManager { name := "0" }).1

theorem jsGet_jsSet_self {α β : Type} [DecidableEq α] (m : JsMap α β) (k : α) (v : β) :
    jsGet (jsSet m k v) k = some v := by
  induction m with
  | nil => simp [jsSet, jsGet]
  | cons p rest ih =>
    by_cases h : p.1 = k
    · simp [jsSet, h, jsGet]
    · simp [jsSet, h, jsGet, ih]

theorem jsGet_jsSet_ne {α β : Type} [DecidableEq α] (m : JsMap α β) (k k' : α) (v : β)
    (h : k' ≠ k) : jsGet (jsSet m k v) k' = jsGet m k' := by
  have hkk : ¬ (k = k') := fun hh => h hh.symm
  induction m with
  | nil => simp [jsSet, jsGet, hkk]
  | cons p rest ih =>
    by_cases hp : p.1 = k
    · have hp' : ¬ (p.1 = k') := by rw [hp]; exact hkk
      simp [jsSet, hp, jsGet, hkk, hp']
    · simp [jsSet, hp, jsGet, ih]

theorem jsGet_jsDelete_self {α β : Type} [DecidableEq α] (m : JsMap α β) (k : α) :
    jsGet (jsDelete m k) k = none := by
  induction m with
  | nil => rfl
  | cons p rest ih =>
    by_cases hp : p.1 = k
    · simp [jsDelete, hp, ih]
    · simp [jsDelete, hp, jsGet, ih]

theorem jsGet_jsDelete_ne {α β : Type} [DecidableEq α] (m : JsMap α β) (k k' : α)
    (h : k' ≠ k) : jsGet (jsDelete m k) k' = jsGet m k' := by
  induction m with
  | nil => rfl
  | cons p rest ih =>
    by_cases hp : p.1 = k
    · have hp' : ¬ (p.1 = k') := fun hh => h (hh.symm.trans hp)
      simp [jsDelete, hp, jsGet, hp', ih, Ne.symm h]
    · simp [jsDelete, hp, jsGet, ih]

theorem jsGet_eq_none_iff {α β : Type} [DecidableEq α] (m : JsMap α β) (k : α) :
    jsGet m k = none ↔ ∀ p ∈ m, p.1 ≠ k := by
  induction m with
  | nil => simp [jsGet]
  | cons p rest ih =>
    by_cases h : p.1 = k
    · simp [jsGet, h]
    · simp [jsGet, h, ih]

theorem jsGet_some_mem {α β : Type} [DecidableEq α] {m : JsMap α β} {k : α} {v : β}
    (h : jsGet m k = some v) : (k, v) ∈ m := by
  induction m with
  | nil => simp [jsGet] at h
  | cons p rest ih =>
    by_cases hp : p.1 = k
    · simp only [jsGet, if_pos hp] at h
      injection h with h
      have hpv : p = (k, v) := by
        obtain ⟨p1, p2⟩ := p
        simp at hp h
        rw [hp, h]
      rw [← hpv]
      exact List.mem_cons_self p rest
    · simp only [jsGet, if_neg hp] at h
      exact List.mem_cons_of_mem _ (ih h)

theorem mem_jsSet {α β : Type} [DecidableEq α] {m : JsMap α β} {k : α} {v : β} {q : α × β}
    (hnd : (m.map Prod.fst).Nodup) (hq : q ∈ jsSet m k v) :
    q = (k, v) ∨ (q ∈ m ∧ q.1 ≠ k) := by
  induction m with
  | nil =>
    simp [jsSet] at hq
    exact Or.inl hq
  | cons p rest ih =>
    rw [List.map_cons, List.nodup_cons] at hnd
    obtain ⟨hpnot, hnd2⟩ := hnd
    by_cases hp : p.1 = k
    · simp only [jsSet, if_pos hp] at hq
      rcases List.mem_cons.mp hq with hq | hq
      · exact Or.inl hq
      · right
        refine ⟨List.mem_cons_of_mem _ hq, fun hqk => ?_⟩
        have hmem : q.1 ∈ rest.map Prod.fst := List.mem_map_of_mem Prod.fst hq
        rw [hqk, ← hp] at hmem
        exact hpnot hmem
    · simp only [jsSet, if_neg hp] at hq
      rcases List.mem_cons.mp hq with hq | hq
      · exact Or.inr ⟨by simp [hq], by rw [hq]; exact hp⟩
      · rcases ih hnd2 hq with h | h
        · exact Or.inl h
        · exact Or.inr ⟨List.mem_cons_of_mem _ h.1, h.2⟩

theorem mem_jsDelete {α β : Type} [DecidableEq α] {m : JsMap α β} {k : α} {q : α × β} :
    q ∈ jsDelete m k ↔ q ∈ m ∧ q.1 ≠ k := by
  induction m with
  | nil => simp [jsDelete]
  | cons p rest ih =>
    by_cases hp : p.1 = k
    · simp only [jsDelete, if_pos hp]
      constructor
      · intro hq
        obtain ⟨h1, h2⟩ := ih.mp hq
        exact ⟨List.mem_cons_of_mem _ h1, h2⟩
      · rintro ⟨hq, hqk⟩
        rcases List.mem_cons.mp hq with rfl | hq
        · exact absurd hp hqk
        · exact ih.mpr ⟨hq, hqk⟩
    · simp only [jsDelete, if_neg hp]
      constructor
      · intro hq
        rcases List.mem_cons.mp hq with rfl | hq
        · exact ⟨List.mem_cons_self _ _, hp⟩
        · obtain ⟨h1, h2⟩ := ih.mp hq
          exact ⟨List.mem_cons_of_mem _ h1, h2⟩
      · rintro ⟨hq, hqk⟩
        rcases List.mem_cons.mp hq with rfl | hq
        · exact List.mem_cons_self _ _
        · exact List.mem_cons_of_mem _ (ih.mpr ⟨hq, hqk⟩)

theorem jsDelete_sublist {α β : Type} [DecidableEq α] {m : JsMap α β} {k : α} :
    List.Sublist (jsDelete m k) m := by
  induction m with
  | nil => simp [jsDelete]
  | cons p rest ih =>
    by_cases hp : p.1 = k
    · simp only [jsDelete, if_pos hp]
      exact List.Sublist.cons p ih
    · simp only [jsDelete, if_neg hp]
      exact List.Sublist.cons₂ p ih

theorem keys_jsSet_subset {α β : Type} [DecidableEq α] (m : JsMap α β) (k : α) (v : β) :
    ((jsSet m k v).map Prod.fst) ⊆ k :: m.map Prod.fst := by
  induction m with
  | nil => simp [jsSet]
  | cons p rest ih =>
    by_cases hp : p.1 = k
    · simp only [jsSet, if_pos hp, List.map_cons]
      intro a ha
      rcases List.mem_cons.mp ha with ha | ha
      · simp [ha]
      · simp [ha]
    · simp only [jsSet, if_neg hp, List.map_cons]
      intro a ha
      rcases List.mem_cons.mp ha with ha | ha
      · subst ha
        simp
      · rcases List.mem_cons.mp (ih ha) with h | h
        · simp [h]
        · simp [h]

theorem keys_jsSet_nodup {α β : Type} [DecidableEq α] {m : JsMap α β} (k : α) (v : β)
    (hnd : (m.map Prod.fst).Nodup) : ((jsSet m k v).map Prod.fst).Nodup := by
  induction m with
  | nil => simp [jsSet]
  | cons p rest ih =>
    rw [List.map_cons, List.nodup_cons] at hnd
    obtain ⟨hpnot, hnd2⟩ := hnd
    by_cases hp : p.1 = k
    · simp only [jsSet, if_pos hp, List.map_cons, List.nodup_cons]
      exact ⟨hp ▸ hpnot, hnd2⟩
    · simp only [jsSet, if_neg hp, List.map_cons, List.nodup_cons]
      refine ⟨fun hmem => ?_, ih hnd2⟩
      rcases List.mem_cons.mp (keys_jsSet_subset rest k v hmem) with h | h
      · exact hp h
      · exact hpnot h

theorem keys_jsDelete_nodup {α β : Type} [DecidableEq α] {m : JsMap α β} (k : α)
    (hnd : (m.map Prod.fst).Nodup) : ((jsDelete m k).map Prod.fst).Nodup := by
  exact List.Nodup.sublist (List.Sublist.map Prod.fst jsDelete_sublist) hnd

theorem countP_jsSet_fresh {α β : Type} [DecidableEq α] {m : JsMap α β} {k : α} (v : β)
    (Q : α × β → Bool) (h : jsGet m k = none) :
    (jsSet m k v).countP Q = m.countP Q + (if Q (k, v) then 1 else 0) := by
  induction m with
  | nil =>
    by_cases hQ : Q (k, v) <;> simp [jsSet, List.countP_cons, hQ]
  | cons p rest ih =>
    simp only [jsGet] at h
    by_cases hp : p.1 = k
    · rw [if_pos hp] at h
      exact absurd h (by simp)
    · rw [if_neg hp] at h
      simp only [jsSet, if_neg hp, List.countP_cons, ih h]
      omega

theorem jsDelete_of_absent {α β : Type} [DecidableEq α] {m : JsMap α β} {k : α}
    (h : ∀ p ∈ m, p.1 ≠ k) : jsDelete m k = m := by
  induction m with
  | nil => rfl
  | cons p rest ih =>
    have hp : p.1 ≠ k := h p (List.mem_cons_self p rest)
    have ih' := ih (fun q hq => h q (List.mem_cons_of_mem _ hq))
    simp [jsDelete, hp, ih']

theorem countP_jsDelete {α β : Type} [DecidableEq α] {m : JsMap α β} {k : α} {v : β}
    (Q : α × β → Bool) (hnd : (m.map Prod.fst).Nodup) (h : jsGet m k = some v) :
    m.countP Q = (jsDelete m k).countP Q + (if Q (k, v) then 1 else 0) := by
  induction m with
  | nil => simp [jsGet] at h
  | cons p rest ih =>
    rw [List.map_cons, List.nodup_cons] at hnd
    obtain ⟨hpnot, hnd2⟩ := hnd
    simp only [jsGet] at h
    by_cases hp : p.1 = k
    · rw [if_pos hp] at h
      injection h with h
      have hrest : ∀ q ∈ rest, q.1 ≠ k := by
        intro q hq hqk
        have hmem : q.1 ∈ rest.map Prod.fst := List.mem_map_of_mem Prod.fst hq
        rw [hqk, ← hp] at hmem
        exact hpnot hmem
      have hdel : jsDelete (p :: rest) k = rest := by
        have h1 : jsDelete (p :: rest) k = jsDelete rest k := by
          simp [jsDelete, hp]
        rw [h1, jsDelete_of_absent hrest]
      have hpv : p = (k, v) := by
        obtain ⟨p1, p2⟩ := p
        simp at hp h
        rw [hp, h]
      rw [hdel, List.countP_cons, hpv]
    · rw [if_neg hp] at h
      have h1 : jsDelete (p :: rest) k = p :: jsDelete rest k := by
        simp [jsDelete, hp]
      rw [h1, List.countP_cons, List.countP_cons, ih hnd2 h]
      omega
theorem wfState_node_id {fs : FileSystem} (hwf : fs.WFState) {k : NodeId}
    {n : Node} (h : jsGet fs.nodes k = some n) : n.id = k :=
  hwf.2.2.1 (k, n) (jsGet_some_mem h)

theorem wfState_set_node {fs : FileSystem} (hwf : fs.WFState) {k : NodeId}
    {n' : Node} (hid : n'.id = k) :
    FileSystem.WFState { fs with nodes := jsSet fs.nodes k n' } := by
  obtain ⟨h1, h2, h3, h4⟩ := hwf
  refine ⟨keys_jsSet_nodup k n' h1, h2, ?_, h4⟩
  intro p hp
  rcases mem_jsSet h1 hp with rfl | ⟨hp, _⟩
  · exact hid
  · exact h3 p hp

theorem wfState_delete_node {fs : FileSystem} (hwf : fs.WFState) (k : NodeId) :
    FileSystem.WFState { fs with nodes := jsDelete fs.nodes k } := by
  obtain ⟨h1, h2, h3, h4⟩ := hwf
  refine ⟨keys_jsDelete_nodup k h1, h2, ?_, h4⟩
  intro p hp
  exact h3 p (mem_jsDelete.mp hp).1

theorem wfState_set_entry {fs : FileSystem} (hwf : fs.WFState) {k : EntryId}
    {e : Entry} (hid : e.id = k) :
    FileSystem.WFState { fs with entries := jsSet fs.entries k e } := by
  obtain ⟨h1, h2, h3, h4⟩ := hwf
  refine ⟨h1, keys_jsSet_nodup k e h2, h3, ?_⟩
  intro p hp
  rcases mem_jsSet h2 hp with rfl | ⟨hp, _⟩
  · exact hid
  · exact h4 p hp

theorem wfState_delete_entry {fs : FileSystem} (hwf : fs.WFState) (k : EntryId) :
    FileSystem.WFState { fs with entries := jsDelete fs.entries k } := by
  obtain ⟨h1, h2, h3, h4⟩ := hwf
  refine ⟨h1, keys_jsDelete_nodup k h2, h3, ?_⟩
  intro p hp
  exact h4 p (mem_jsDelete.mp hp).1

theorem refTargets_set_fresh {es : JsMap EntryId Entry} {e : Entry}
    (hfresh : jsGet es e.id = none) (nid : NodeId) :
    (jsSet es e.id e).countP (fun p => decide (p.2.node = nid)) =
      es.countP (fun p => decide (p.2.node = nid)) +
        (if e.node = nid then 1 else 0) := by
  rw [countP_jsSet_fresh e (fun p => decide (p.2.node = nid)) hfresh]
  by_cases hh : e.node = nid <;> simp [hh]

theorem refTargets_delete {es : JsMap EntryId Entry} {id : EntryId} {e : Entry}
    (hnd : (es.map Prod.fst).Nodup) (h : jsGet es id = some e) (nid : NodeId) :
    es.countP (fun p => decide (p.2.node = nid)) =
      (jsDelete es id).countP (fun p => decide (p.2.node = nid)) +
        (if e.node = nid then 1 else 0) := by
  rw [countP_jsDelete (fun p => decide (p.2.node = nid)) hnd h]
  by_cases hh : e.node = nid <;> simp [hh]

theorem createNode_preserves {fs : FileSystem} {id : NodeId} {d : NodeData}
    (hwf : fs.WFState) (hinv : fs.RefInv)
    (hfresh : jsGet fs.nodes id = none) (hnoref : fs.refTargets id = 0) :
    (Node.create fs id d).1.WFState ∧ (Node.create fs id d).1.RefInv := by
  constructor
  · exact wfState_set_node hwf rfl
  · intro p hp
    simp only [Node.create, FileSystem.addNode] at hp ⊢
    rcases mem_jsSet hwf.1 hp with rfl | ⟨hp, _⟩
    · simp only [FileSystem.refTargets] at hnoref ⊢
      simp [hnoref]
    · exact hinv p hp

theorem removeNode_preserves {fs : FileSystem} {id : NodeId}
    (hwf : fs.WFState) (hinv : fs.RefInv) :
    (fs.removeNode id).1.WFState ∧ (fs.removeNode id).1.RefInv := by
  rcases hn : jsGet fs.nodes id with _ | n
  · simp only [FileSystem.removeNode, hn]
    exact ⟨hwf, hinv⟩
  · simp only [FileSystem.removeNode, hn]
    refine ⟨wfState_delete_node hwf id, ?_⟩
    intro p hp
    exact hinv p (mem_jsDelete.mp hp).1

theorem addEntry_preserves {fs : FileSystem} {e : Entry}
    (hwf : fs.WFState) (hinv : fs.RefInv)
    (hfresh : jsGet fs.entries e.id = none) :
    (fs.addEntry e).1.WFState ∧ (fs.addEntry e).1.RefInv := by
  have hwf1 : FileSystem.WFState { fs with entries := jsSet fs.entries e.id e } :=
    wfState_set_entry hwf rfl
  rcases hn : jsGet fs.nodes e.node with _ | n
  · have hfs' : (fs.addEntry e).1 = { fs with entries := jsSet fs.entries e.id e } := by
      simp [FileSystem.addEntry, hn]
    rw [hfs']
    refine ⟨hwf1, ?_⟩
    intro p hp
    have hne : p.1 ≠ e.node := (jsGet_eq_none_iff fs.nodes e.node).mp hn p hp
    have hold := hinv p hp
    simp only [FileSystem.RefInv, FileSystem.refTargets] at hold ⊢
    rw [refTargets_set_fresh hfresh p.1, if_neg (fun hh => hne hh.symm)]
    simpa using hold
  · have hid : n.id = e.node := wfState_node_id hwf hn
    have hfs' : (fs.addEntry e).1 =
        { fs with entries := jsSet fs.entries e.id e,
                  nodes := jsSet fs.nodes e.node { n with references := n.references + 1 } } := by
      simp [FileSystem.addEntry, hn]
    rw [hfs']
    constructor
    · exact wfState_set_node hwf1 hid
    · intro p hp
      simp only [FileSystem.refTargets] at hp ⊢
      rcases mem_jsSet hwf.1 hp with rfl | ⟨hp, hne⟩
      · have hold := hinv (e.node, n) (jsGet_some_mem hn)
        simp only [FileSystem.refTargets] at hold
        simp only [FileSystem.refTargets]
        rw [refTargets_set_fresh hfresh e.node, if_pos rfl]
        simp at hold ⊢
        omega
      · have hold := hinv p hp
        simp only [FileSystem.refTargets] at hold
        rw [refTargets_set_fresh hfresh p.1, if_neg (fun hh => hne hh.symm)]
        simpa using hold

theorem removeEntry_preserves {fs : FileSystem} {id : EntryId}
    (hwf : fs.WFState) (hinv : fs.RefInv) :
    (fs.removeEntry id).1.WFState ∧ (fs.removeEntry id).1.RefInv := by
  rcases he : jsGet fs.entries id with _ | e
  · simp only [FileSystem.removeEntry, he]
    exact ⟨hwf, hinv⟩
  · have hwf1 : FileSystem.WFState { fs with entries := jsDelete fs.entries id } :=
      wfState_delete_entry hwf id
    have hdel := fun nid => refTargets_delete hwf.2.1 he nid
    rcases hn : jsGet fs.nodes e.node with _ | n
    · have hfs' : (fs.removeEntry id).1 = { fs with entries := jsDelete fs.entries id } := by
        simp [FileSystem.removeEntry, he, hn]
      rw [hfs']
      refine ⟨hwf1, ?_⟩
      intro p hp
      have hne : p.1 ≠ e.node := (jsGet_eq_none_iff fs.nodes e.node).mp hn p hp
      have hold := hinv p hp
      have hd := hdel p.1
      rw [if_neg (fun hh => hne hh.symm)] at hd
      simp only [FileSystem.RefInv, FileSystem.refTargets] at hold ⊢
      omega
    · have hid : n.id = e.node := wfState_node_id hwf hn
      by_cases hz : n.references - 1 ≤ 0
      · have hfs' : (fs.removeEntry id).1 =
            { fs with entries := jsDelete fs.entries id,
                      nodes := jsDelete (jsSet fs.nodes e.node { n with references := n.references - 1 }) e.node } := by
          simp [FileSystem.removeEntry, he, hn, hz, FileSystem.removeNode, hid, jsGet_jsSet_self]
        rw [hfs']
        constructor
        · exact wfState_delete_node (wfState_set_node hwf1 (show ({ n with references := n.references - 1 } : Node).id = e.node from hid)) e.node
        · intro p hp
          obtain ⟨hp, hpne⟩ := mem_jsDelete.mp hp
          rcases mem_jsSet hwf.1 hp with rfl | ⟨hp, _⟩
          · exact absurd rfl hpne
          · have hold := hinv p hp
            have hd := hdel p.1
            rw [if_neg (fun hh => hpne hh.symm)] at hd
            simp only [FileSystem.refTargets] at hold ⊢
            omega
      · have hfs' : (fs.removeEntry id).1 =
            { fs with entries := jsDelete fs.entries id,
                      nodes := jsSet fs.nodes e.node { n with references := n.references - 1 } } := by
          simp [FileSystem.removeEntry, he, hn, hz]
        rw [hfs']
        constructor
        · exact wfState_set_node hwf1 (show ({ n with references := n.references - 1 } : Node).id = e.node from hid)
        · intro p hp
          rcases mem_jsSet hwf.1 hp with rfl | ⟨hp, hpne⟩
          · have hold := hinv (e.node, n) (jsGet_some_mem hn)
            have hd := hdel e.node
            rw [if_pos rfl] at hd
            simp only [FileSystem.refTargets] at hold ⊢
            omega
          · have hold := hinv p hp
            have hd := hdel p.1
            rw [if_neg (fun hh => hpne hh.symm)] at hd
            simp only [FileSystem.refTargets] at hold ⊢
            omega

theorem dirAddEntry_preserves {fs : FileSystem} {dirId : NodeId} {n : Node}
    {m : JsMap String EntryId} {e : Entry}
    (hwf : fs.WFState) (hinv : fs.RefInv)
    (hdir : jsGet fs.nodes dirId = some n) (hm : n.data = .dir m) :
    FileSystem.WFState { fs with nodes := jsSet fs.nodes dirId { n with data := NodeData.dir (Directory.addEntry n.id m e).1.1 } } ∧
      FileSystem.RefInv { fs with nodes := jsSet fs.nodes dirId { n with data := NodeData.dir (Directory.addEntry n.id m e).1.1 } } := by
  have hid : n.id = dirId := wfState_node_id hwf hdir
  constructor
  · exact wfState_set_node hwf hid
  · intro p hp
    rcases mem_jsSet hwf.1 hp with rfl | ⟨hp, _⟩
    · have hold := hinv (dirId, n) (jsGet_some_mem hdir)
      simpa using hold
    · exact hinv p hp

/-- C1: refcount invariant.  For every node registered in a filesystem the
reference count equals the number of currently-registered entries targeting
it, and this (together with registry well-formedness) is preserved by every
core operation: node construction, explicit node removal,
FileSystem.addEntry (one increment through Node.entryAdded),
FileSystem.removeEntry (one decrement through Node.entryRemoved, including
the auto-destruction and dangling-target paths) and Directory.addEntry on a
registered directory.  The count is thus maintained incrementally between
operations, never recomputed. -/
theorem C1_refcount_invariant {fs fs' : FileSystem}
    (hwf : fs.WFState) (hinv : fs.RefInv) (hstep : Step fs fs') :
    fs'.WFState ∧ fs'.RefInv := by
  cases hstep with
  | createNode id d hfresh hnoref =>
    exact createNode_preserves hwf hinv hfresh hnoref
  | removeNode id => exact removeNode_preserves hwf hinv
  | addEntry e hfresh => exact addEntry_preserves hwf hinv hfresh
  | removeEntry id => exact removeEntry_preserves hwf hinv
  | dirAddEntry dirId n m e hdir hm =>
    exact dirAddEntry_preserves hwf hinv hdir hm

/-- Witness for C1: a concrete well-formed state and a concrete addEntry
step, with the invariant evaluated on both sides. -/
theorem C1_witness :
    (fsW.WFState ∧ fsW.RefInv) ∧
      ((fsW.addEntry eW).1.WFState ∧ (fsW.addEntry eW).1.RefInv) :=
  have hwf : fsW.WFState := by decide
  have hinv : fsW.RefInv := by decide
  ⟨⟨hwf, hinv⟩, C1_refcount_invariant hwf hinv (Step.addEntry fsW eW (by decide))⟩

/-- C2 as amended: FileSystem.removeEntry performs no cascade.  It never
changes the payload of any node that survives it; in particular the parent
directory of the removed entry keeps the name binding in its mapping. -/
theorem C2_no_cascade {fs : FileSystem} {id : EntryId} {nid : NodeId}
    {n' : Node} (hwf : fs.WFState)
    (h : jsGet (fs.removeEntry id).1.nodes nid = some n') :
    ∃ n, jsGet fs.nodes nid = some n ∧ n'.data = n.data := by
  rcases he : jsGet fs.entries id with _ | e
  · simp only [FileSystem.removeEntry, he] at h
    exact ⟨n', h, rfl⟩
  · rcases hn : jsGet fs.nodes e.node with _ | n
    · simp only [FileSystem.removeEntry, he, hn] at h
      exact ⟨n', h, rfl⟩
    · have hid : n.id = e.node := wfState_node_id hwf hn
      by_cases hz : n.references - 1 ≤ 0
      · have hres : (fs.removeEntry id).1 =
            { fs with entries := jsDelete fs.entries id,
                      nodes := jsDelete (jsSet fs.nodes e.node { n with references := n.references - 1 }) e.node } := by
          simp [FileSystem.removeEntry, he, hn, hz, FileSystem.removeNode, hid, jsGet_jsSet_self]
        rw [hres] at h
        by_cases hnid : nid = e.node
        · rw [hnid, jsGet_jsDelete_self] at h
          exact Option.noConfusion h
        · rw [jsGet_jsDelete_ne _ _ _ hnid, jsGet_jsSet_ne _ _ _ _ hnid] at h
          exact ⟨n', h, rfl⟩
      · have hres : (fs.removeEntry id).1 =
            { fs with entries := jsDelete fs.entries id,
                      nodes := jsSet fs.nodes e.node { n with references := n.references - 1 } } := by
          simp [FileSystem.removeEntry, he, hn, hz]
        rw [hres] at h
        by_cases hnid : nid = e.node
        · rw [hnid, jsGet_jsSet_self] at h
          injection h with h
          refine ⟨n, by rw [hnid]; exact hn, ?_⟩
          rw [← h]
        · rw [jsGet_jsSet_ne _ _ _ _ hnid] at h
          exact ⟨n', h, rfl⟩

/-- Counterexample to C2 as stated: in the specification example scenario,
after FileSystem.removeEntry removes the file entry, the parent directory
node still maps the removed name a.txt to the removed entry id, and
Directory.getEntry on that mapping throws a TypeError rather than NotFound. -/
theorem C2_counterexample :
    (fs2.removeEntry 11).1.getNode 0 =
        .ok { id := 0, references := 1, data := .dir [("a.txt", 11)] } ∧
      Directory.getEntryByName [("a.txt", 11)] "a.txt" = .error .typeError :=
  ⟨rfl, rfl⟩

/-- Witness for the amended C2 at the concrete scenario: the surviving
directory node keeps its payload across the removal. -/
theorem C2_witness :
    ∃ n, jsGet fs2.nodes 0 = some n ∧
      ({ id := 0, references := 1, data := .dir [("a.txt", 11)] } : Node).data = n.data :=
  have h : jsGet (fs2.removeEntry 11).1.nodes 0 =
      some { id := 0, references := 1, data := .dir [("a.txt", 11)] } := rfl
  C2_no_cascade (by decide) h

/-- C3: auto-destruction.  Removing a registered entry whose registered
target node has reference count 1 removes that node as well (a later
getNode on it fails with NotFound); when the decremented count stays
positive the node survives with exactly one decrement; and the removal
never touches any other node, so a node only disappears as the result of
the removal of its own last entry. -/
theorem C3_auto_destruction {fs : FileSystem} {id : EntryId} {e : Entry}
    {n : Node} (hwf : fs.WFState) (he : jsGet fs.entries id = some e)
    (hn : jsGet fs.nodes e.node = some n) :
    (n.references = 1 →
      (fs.removeEntry id).1.getNode e.node = .error .notFound ∧
        (fs.removeEntry id).2 = .ok e) ∧
    (1 < n.references →
      jsGet (fs.removeEntry id).1.nodes e.node =
          some { n with references := n.references - 1 } ∧
        (fs.removeEntry id).2 = .ok e) ∧
    (∀ nid, nid ≠ e.node →
      jsGet (fs.removeEntry id).1.nodes nid = jsGet fs.nodes nid) := by
  have hid : n.id = e.node := wfState_node_id hwf hn
  refine ⟨?_, ?_, ?_⟩
  · intro h1
    have hz : n.references - 1 ≤ 0 := by omega
    have hres : fs.removeEntry id =
        ({ fs with entries := jsDelete fs.entries id,
                   nodes := jsDelete (jsSet fs.nodes e.node { n with references := n.references - 1 }) e.node },
          .ok e) := by
      simp [FileSystem.removeEntry, he, hn, hz, FileSystem.removeNode, hid, jsGet_jsSet_self]
    rw [hres]
    exact ⟨by simp [FileSystem.getNode, jsGet_jsDelete_self], rfl⟩
  · intro h1
    have hz : ¬ (n.references - 1 ≤ 0) := by omega
    have hres : fs.removeEntry id =
        ({ fs with entries := jsDelete fs.entries id,
                   nodes := jsSet fs.nodes e.node { n with references := n.references - 1 } },
          .ok e) := by
      simp [FileSystem.removeEntry, he, hn, hz]
    rw [hres]
    exact ⟨jsGet_jsSet_self _ _ _, rfl⟩
  · intro nid hne
    by_cases hz : n.references - 1 ≤ 0
    · have hres : (fs.removeEntry id).1 =
          { fs with entries := jsDelete fs.entries id,
                    nodes := jsDelete (jsSet fs.nodes e.node { n with references := n.references - 1 }) e.node } := by
        simp [FileSystem.removeEntry, he, hn, hz, FileSystem.removeNode, hid, jsGet_jsSet_self]
      rw [hres]
      rw [jsGet_jsDelete_ne _ _ _ hne, jsGet_jsSet_ne _ _ _ _ hne]
    · have hres : (fs.removeEntry id).1 =
          { fs with entries := jsDelete fs.entries id,
                    nodes := jsSet fs.nodes e.node { n with references := n.references - 1 } } := by
        simp [FileSystem.removeEntry, he, hn, hz]
      rw [hres]
      rw [jsGet_jsSet_ne _ _ _ _ hne]

/-- Witness for C3 at the concrete example scenario: removing the single
entry of the file node auto-destroys the node. -/
theorem C3_witness :
    (fs2.removeEntry 11).1.getNode 1 = .error .notFound ∧
      (fs2.removeEntry 11).2 = .ok eA :=
  have he : jsGet fs2.entries 11 = some eA := rfl
  have hn : jsGet fs2.nodes 1 = some fileF := rfl
  (C3_auto_destruction (by decide) he hn).1 rfl

theorem event_not_both {ev : Event} (h1 : ev.isSetup = true)
    (h2 : ev.isStart = true) : False := by
  cases ev <;> simp [Event.isSetup, Event.isStart] at h1 h2

theorem append_phase_lt {A B : List Event}
    (hA : ∀ a ∈ A, a.isSetup = true) (hB : ∀ b ∈ B, b.isStart = true) :
    ∀ i j (hi : i < (A ++ B).length) (hj : j < (A ++ B).length),
      ((A ++ B).get ⟨i, hi⟩).isSetup = true →
      ((A ++ B).get ⟨j, hj⟩).isStart = true → i < j := by
  intro i j hi hj hsetup hstart
  simp only [List.get_eq_getElem] at hsetup hstart
  rw [List.length_append] at hi hj
  by_cases hiA : i < A.length
  · by_cases hjA : j < A.length
    · exfalso
      rw [List.getElem_append_left hjA] at hstart
      exact event_not_both (hA _ (List.getElem_mem hjA)) hstart
    · omega
  · exfalso
    push_neg at hiA
    have hlen : i - A.length < B.length := by omega
    rw [List.getElem_append_right hiA] at hsetup
    exact event_not_both hsetup (hB _ (List.getElem_mem hlen))

/-- C4 as amended: kernel phase ordering.  Kernel.start sets the running
flag; its trace is exactly one setup event per registered manager followed
by one start event per registered manager, both phases following the same
own-property enumeration order of the manager registry (array-index names
first in ascending numeric order, then the rest in registration order);
when no manager name is an array-index string that order is registration
order; and in every case each setup call precedes each start call. -/
theorem C4_kernel_phase_ordering (k : Kernel) :
    (Kernel.start k).1.running = true ∧
    ((Kernel.start k).2.filter Event.isSetup =
        (jsValues k.managers).map (fun mg => Event.setup mg.name)) ∧
    ((Kernel.start k).2.filter Event.isStart =
        (jsValues k.managers).map (fun mg => Event.start mg.name)) ∧
    ((∀ p ∈ k.managers, isArrayIndexKey p.1 = false) →
      jsValues k.managers = k.managers.map Prod.snd) ∧
    ∀ i j (hi : i < (Kernel.start k).2.length)
        (hj : j < (Kernel.start k).2.length),
      ((Kernel.start k).2.get ⟨i, hi⟩).isSetup = true →
      ((Kernel.start k).2.get ⟨j, hj⟩).isStart = true → i < j := by
  have hA : ∀ a ∈ (jsValues k.managers).map (fun mg => Event.setup mg.name),
      a.isSetup = true := by
    intro a ha
    obtain ⟨p, hp, rfl⟩ := List.mem_map.mp ha
    rfl
  have hB : ∀ b ∈ (jsValues k.managers).map (fun mg => Event.start mg.name),
      b.isStart = true := by
    intro b hb
    obtain ⟨p, hp, rfl⟩ := List.mem_map.mp hb
    rfl
  refine ⟨rfl, ?_, ?_, ?_, append_phase_lt hA hB⟩
  · have h1 : List.filter Event.isSetup
        ((jsValues k.managers).map (fun mg => Event.start mg.name)) = [] := by
      rw [List.filter_eq_nil_iff]
      intro a ha
      obtain ⟨p, hp, rfl⟩ := List.mem_map.mp ha
      simp [Event.isSetup]
    show List.filter Event.isSetup
        ((jsValues k.managers).map (fun mg => Event.setup mg.name) ++
          (jsValues k.managers).map (fun mg => Event.start mg.name)) = _
    rw [List.filter_append, List.filter_eq_self.mpr hA, h1, List.append_nil]
  · have h1 : List.filter Event.isStart
        ((jsValues k.managers).map (fun mg => Event.setup mg.name)) = [] := by
      rw [List.filter_eq_nil_iff]
      intro a ha
      obtain ⟨p, hp, rfl⟩ := List.mem_map.mp ha
      simp [Event.isStart]
    show List.filter Event.isStart
        ((jsValues k.managers).map (fun mg => Event.setup mg.name) ++
          (jsValues k.managers).map (fun mg => Event.start mg.name)) = _
    rw [List.filter_append, List.filter_eq_self.mpr hB, h1, List.nil_append]
  · intro hnone
    have h1 : k.managers.filter (fun p => isArrayIndexKey p.1) = [] := by
      rw [List.filter_eq_nil_iff]
      intro p hp
      simp [hnone p hp]
    have h2 : k.managers.filter (fun p => !isArrayIndexKey p.1) =
        k.managers := by
      rw [List.filter_eq_self]
      intro p hp
      simp [hnone p hp]
    simp [jsValues, h1, h2, sortByIdx]

/-- Counterexample to C4 as stated: on the kernel kX, whose managers were
registered in the order b then 0, the first setup invocation of
Kernel.start is for the manager named 0, because the array-index-like key 0
enumerates before b in Object.values; the trace therefore differs from the
registration-order trace the claim demands. -/
theorem C4_counterexample :
    (Kernel.start kX).2 =
        [Event.setup "0", Event.setup "b", Event.start "0", Event.start "b"] ∧
      kX.managers.map Prod.fst = ["b", "0"] ∧
      (Kernel.start kX).2 ≠
        [Event.setup "b", Event.setup "0", Event.start "b", Event.start "0"] :=
  ⟨by decide, by decide, by decide⟩

/-- Witness for the amended C4 at the concrete two-manager kernel (names a
and b are not array-index strings): the flag is set, enumeration order
equals registration order, and the setup event at index 0 precedes the
start event at index 2. -/
theorem C4_witness :
    (Kernel.start k2).1.running = true ∧
      jsValues k2.managers = k2.managers.map Prod.snd ∧ (0 : Nat) < 2 :=
  have h := C4_kernel_phase_ordering k2
  ⟨h.1, h.2.2.2.1 (by decide),
    h.2.2.2.2 0 2 (by decide) (by decide) (by decide) (by decide)⟩

/-- C6: Directory duplicate-name rejection.  When the mapping already binds
the entry name, addEntry fails with DuplicateName leaving the mapping and
the entry parent untouched; otherwise it inserts the entry id under the
name and sets the entry parent to this directory. -/
theorem C6_duplicate_name (dirId : NodeId) (mapping : JsMap String EntryId)
    (e : Entry) :
    ((jsGet mapping e.name).isSome →
      Directory.addEntry dirId mapping e =
        ((mapping, e), .error .duplicateName)) ∧
    (jsGet mapping e.name = none →
      Directory.addEntry dirId mapping e =
          ((jsSet mapping e.name e.id, { e with parent := some dirId }), .ok ()) ∧
        jsGet (jsSet mapping e.name e.id) e.name = some e.id) := by
  constructor
  · intro h
    simp [Directory.addEntry, h]
  · intro h
    refine ⟨?_, jsGet_jsSet_self _ _ _⟩
    simp [Directory.addEntry, h]

/-- Witness for C6: a fresh name is inserted with the parent set; a
duplicate name is rejected with the mapping and entry unchanged. -/
theorem C6_witness :
    Directory.addEntry 0 [("a.txt", 11)]
        { id := 20, name := "b.txt", node := 1, parent := none } =
      (([("a.txt", 11), ("b.txt", 20)],
          { id := 20, name := "b.txt", node := 1, parent := some 0 }), .ok ()) ∧
    Directory.addEntry 0 [("a.txt", 11)]
        { id := 21, name := "a.txt", node := 1, parent := none } =
      (([("a.txt", 11)],
          { id := 21, name := "a.txt", node := 1, parent := none }),
        .error .duplicateName) :=
  ⟨((C6_duplicate_name 0 [("a.txt", 11)] _).2 (by decide)).1,
    (C6_duplicate_name 0 [("a.txt", 11)] _).1 (by decide)⟩

/-- C7: Kernel.registerManager contract.  After start it always fails with
InvalidLifecycleState; a taken name fails with DuplicateName; both failures
return the kernel state unchanged (the first-registered manager stays in
place); otherwise the manager is stored under its name.  registerManager
never changes the running flag and Kernel.start sets it, so the
registration lock is never released by any kernel operation. -/
theorem C7_register_manager (k : Kernel) (m : Manager) :
    (k.running = true →
      k.registerManager m = (k, .error .invalidLifecycleState)) ∧
    (k.running = false → (jsGet k.managers m.name).isSome →
      k.registerManager m = (k, .error .duplicateName)) ∧
    (k.running = false → jsGet k.managers m.name = none →
      k.registerManager m =
          ({ k with managers := jsSet k.managers m.name m }, .ok ()) ∧
        jsGet (jsSet k.managers m.name m) m.name = some m) ∧
    ((k.registerManager m).1.running = k.running) ∧
    ((Kernel.start k).1.running = true) := by
  refine ⟨?_, ?_, ?_, ?_, rfl⟩
  · intro h
    simp [Kernel.registerManager, h]
  · intro h1 h2
    simp [Kernel.registerManager, h1, h2]
  · intro h1 h2
    refine ⟨?_, jsGet_jsSet_self _ _ _⟩
    simp [Kernel.registerManager, h1, h2]
  · by_cases h : k.running
    · simp [Kernel.registerManager, h]
    · by_cases h2 : (jsGet k.managers m.name).isSome <;>
        simp [Kernel.registerManager, h, h2]

/-- Witness for C7: registering the fresh name c on the concrete kernel
succeeds and stores the manager. -/
theorem C7_witness :
    k2.registerManager { name := "c" } =
        ({ k2 with managers := jsSet k2.managers "c" { name := "c" } }, .ok ()) ∧
      jsGet (jsSet k2.managers "c" { name := "c" }) "c" = some { name := "c" } :=
  (C7_register_manager k2 { name := "c" }).2.2.1 rfl (by decide)

/-- C8: the failing input of the Directory.removeEntry bug.  The mapping
contains the name a (second conjunct), so the claim demands the binding be
removed and the entry returned; instead every call throws a TypeError (the
method reads `this.entries`, a property that does not exist on Directory)
and leaves the mapping untouched. -/
theorem C8_remove_entry_bug :
    Directory.removeEntryByName [("a", 1)] "a" =
        ([("a", 1)], .error .typeError) ∧
      (jsGet [("a", (1 : EntryId))] "a").isSome := by
  exact ⟨rfl, by decide⟩

/-- C9: FileSystem.addEntry is not atomic on a dangling target.  When the
target node id is unregistered the call fails with NotFound, yet the entry
has already been inserted in the entry registry, and no reference count was
touched (the node registry is unchanged). -/
theorem C9_addEntry_not_atomic {fs : FileSystem} {e : Entry}
    (h : jsGet fs.nodes e.node = none) :
    fs.addEntry e =
        ({ fs with entries := jsSet fs.entries e.id e }, .error .notFound) ∧
      jsGet (jsSet fs.entries e.id e) e.id = some e ∧
      ({ fs with entries := jsSet fs.entries e.id e }).nodes = fs.nodes := by
  refine ⟨?_, jsGet_jsSet_self _ _ _, rfl⟩
  simp [FileSystem.addEntry, h]

/-- Witness for C9: adding an entry whose target node id 99 is absent. -/
theorem C9_witness :
    fsW.addEntry { id := 12, name := "dg", node := 99, parent := none } =
        ({ fsW with entries := jsSet fsW.entries 12 { id := 12, name := "dg", node := 99, parent := none } }, .error .notFound) ∧
      jsGet (jsSet fsW.entries 12 { id := 12, name := "dg", node := 99, parent := none }) 12 =
        some { id := 12, name := "dg", node := 99, parent := none } ∧
      ({ fsW with entries := jsSet fsW.entries 12 { id := 12, name := "dg", node := 99, parent := none } }).nodes = fsW.nodes :=
  C9_addEntry_not_atomic (by decide)

/-- C10: FileSystem.removeEntry is not atomic on a dangling target.  For a
registered entry whose target node has already been removed, the call fails
with NotFound, yet the entry has already been deleted from the entry
registry, and the node registry is unchanged. -/
theorem C10_removeEntry_not_atomic {fs : FileSystem} {id : EntryId}
    {e : Entry} (he : jsGet fs.entries id = some e)
    (hn : jsGet fs.nodes e.node = none) :
    fs.removeEntry id =
        ({ fs with entries := jsDelete fs.entries id }, .error .notFound) ∧
      jsGet (jsDelete fs.entries id) id = none ∧
      ({ fs with entries := jsDelete fs.entries id }).nodes = fs.nodes := by
  refine ⟨?_, jsGet_jsDelete_self _ _, rfl⟩
  simp [FileSystem.removeEntry, he, hn]

/-- Witness for C10: removing the dangling entry of the concrete state. -/
theorem C10_witness :
    fsD.removeEntry 30 =
        ({ fsD with entries := jsDelete fsD.entries 30 }, .error .notFound) ∧
      jsGet (jsDelete fsD.entries 30) 30 = none ∧
      ({ fsD with entries := jsDelete fsD.entries 30 }).nodes = fsD.nodes :=
  have he : jsGet fsD.entries 30 =
      some { id := 30, name := "x", node := 99, parent := none } := rfl
  C10_removeEntry_not_atomic he (by decide)

/-- C5 as amended: mount forwarding.  Each of the four ExternDirectory
operations forwards to the identical operation on the root Directory Node
of the target filesystem (same result, same failure, same state effect),
the host filesystem and with it the extern node's own unused inherited
mapping passing through untouched; and when the target root resolves to a
Directory node and the entry name is fresh there, addEntry records the
entry in the target root's name mapping and sets the entry parent to the
root node id. -/
theorem C5_mount_forwarding (host target : FileSystem) (xid : NodeId)
    (e : Entry) (nm : String) :
    (ExternDirectory.addEntry host xid target e =
      ((host, (target.rootAddEntry e).1), (target.rootAddEntry e).2)) ∧
    (ExternDirectory.removeEntry host xid target nm =
      ((host, (target.rootRemoveEntry nm).1), (target.rootRemoveEntry nm).2)) ∧
    (ExternDirectory.getEntry host xid target nm = target.rootGetEntry nm) ∧
    (ExternDirectory.getEntries host xid target = target.rootGetEntries) ∧
    ∀ rid re n m, target.root = some rid →
      jsGet target.entries rid = some re →
      jsGet target.nodes re.node = some n →
      n.data = .dir m → jsGet m e.name = none →
      ExternDirectory.addEntry host xid target e =
          ((host, { target with nodes := jsSet target.nodes n.id { n with data := .dir (jsSet m e.name e.id) } }),
            .ok { e with parent := some n.id }) ∧
        jsGet (jsSet m e.name e.id) e.name = some e.id := by
  refine ⟨rfl, rfl, rfl, rfl, ?_⟩
  intro rid re n m hroot hre hn hdata hfresh
  have hrn : target.rootNode = .ok n := by
    simp [FileSystem.rootNode, hroot, FileSystem.getEntry, hre,
      FileSystem.getNode, hn]
  refine ⟨?_, jsGet_jsSet_self _ _ _⟩
  simp [ExternDirectory.addEntry, FileSystem.rootAddEntry, hrn, hdata,
    Directory.addEntry, hfresh]

/-- Counterexample to C5 as stated: after pushing an entry through the
mount, the entry sits in the target root's mapping, yet the root listing
call `F.root.node.getEntries()` does not return it: it throws a TypeError
(the inherited getEntries reads the nonexistent `entries` property), so
nothing is ever visible via the listing operation. -/
theorem C5_counterexample :
    ((ExternDirectory.addEntry fsH 7 fsT eT).1.2).rootGetEntries =
      .error .typeError := rfl

/-- Witness for the amended C5 at the concrete mount scenario. -/
theorem C5_witness :
    ExternDirectory.addEntry fsH 7 fsT eT =
        ((fsH, { fsT with nodes := jsSet fsT.nodes 0 { id := 0, references := 1, data := .dir (jsSet [] "f" 20) } }),
          .ok { eT with parent := some 0 }) ∧
      jsGet (jsSet ([] : JsMap String EntryId) "f" 20) "f" = some 20 :=
  (C5_mount_forwarding fsH fsT 7 eT "z").2.2.2.2 10 rootT dirT []
    rfl rfl rfl rfl (by decide)

end Radiance
